import Mathlib

/-!
Verification of the moneybag library (`moneybag.h`): a `Moneybag` of three
`uint64_t` coin counters (livres, soliduses, deniers) with overflow-checked
arithmetic and a partial-order comparison, and a `Value` holding the total
worth in deniers inside a `uint128_t`.

Machine integers are embedded as `Nat`; `uint64_t` values satisfy
`≤ uint64Max`, and reductions modulo `uint64Max + 1 = 2^64` (parameter
conversion, wrap-around) and modulo `2^128` (uint128 arithmetic) are written
explicitly.  A C++ member function that may `throw` is embedded as a function
returning the object state paired with a `Bool` that is `true` exactly when
the exception was raised; since the code throws before assigning any field,
the state returned in that case is the original one.  Operators returning a
fresh object (`+`, `-`, `*`) become `Option`-valued functions, `none` on
throw.
-/

/-- `std::numeric_limits<uint64_t>::max()`, the constant `MAX` of the code. -/
def uint64Max : Nat := 18446744073709551615

/-- Modulus of `uint128_t` arithmetic. -/
def uint128Mod : Nat := 340282366920938463463374607431768211456

/-- The class `Moneybag`: three `uint64_t` counters. -/
structure Moneybag where
  livres : Nat
  soliduses : Nat
  deniers : Nat
deriving DecidableEq, Repr

/-- Representation invariant of a C++ `Moneybag`: every counter fits in
`uint64_t`.  Every object constructible in C++ satisfies it, because the
constructor takes `uint64_t` arguments. -/
def Moneybag.wf (m : Moneybag) : Prop :=
  m.livres ≤ uint64Max ∧ m.soliduses ≤ uint64Max ∧ m.deniers ≤ uint64Max

instance (m : Moneybag) : Decidable m.wf := by
  unfold Moneybag.wf; infer_instance

/-- Accessor `Moneybag::livre_number`. -/
def Moneybag.livre_number (m : Moneybag) : Nat := m.livres

/-- Accessor `Moneybag::solidus_number`. -/
def Moneybag.solidus_number (m : Moneybag) : Nat := m.soliduses

/-- Accessor `Moneybag::denier_number`. -/
def Moneybag.denier_number (m : Moneybag) : Nat := m.deniers

/-- `Moneybag::operator+=`: throws `std::out_of_range` when some component of
`m` exceeds `MAX` minus the corresponding component of `self`, otherwise adds
component-wise.  Result: the object state after the call, paired with `true`
iff the exception was thrown; the throw precedes every assignment, so the
state is then the original `self`.  The `% (uint64Max + 1)` is the `uint64_t`
wrap of the `+=` on each field. -/
def Moneybag.addAssign (self m : Moneybag) : Moneybag × Bool :=
  if m.livres > uint64Max - self.livres ∨ m.soliduses > uint64Max - self.soliduses ∨
      m.deniers > uint64Max - self.deniers then
    (self, true)
  else
    (⟨(self.livres + m.livres) % (uint64Max + 1),
      (self.soliduses + m.soliduses) % (uint64Max + 1),
      (self.deniers + m.deniers) % (uint64Max + 1)⟩, false)

/-- `Moneybag::operator+`: copies `*this` and applies `+=`; a thrown
exception propagates, so no result is produced (`none`). -/
def Moneybag.add (a m : Moneybag) : Option Moneybag :=
  match a.addAssign m with
  | (s, false) => some s
  | (_, true) => none

/-- `Moneybag::operator-=`: throws `std::out_of_range` when some component of
`m` exceeds the corresponding component of `self`, otherwise subtracts
component-wise (the guard rules out `uint64_t` wrap-around, so plain `Nat`
subtraction is exact in the taken branch). -/
def Moneybag.subAssign (self m : Moneybag) : Moneybag × Bool :=
  if m.livres > self.livres ∨ m.soliduses > self.soliduses ∨
      m.deniers > self.deniers then
    (self, true)
  else
    (⟨self.livres - m.livres, self.soliduses - m.soliduses,
      self.deniers - m.deniers⟩, false)

/-- `Moneybag::operator-`: copy then `-=`. -/
def Moneybag.sub (a m : Moneybag) : Option Moneybag :=
  match a.subAssign m with
  | (s, false) => some s
  | (_, true) => none

/-- `Moneybag::operator*=`: for `times > 0`, throws `std::out_of_range` when
some component exceeds `MAX / times` (integer division, as in the code);
otherwise multiplies every component by `times`, with the `uint64_t` wrap of
`*=` written explicitly. -/
def Moneybag.mulAssign (self : Moneybag) (times : Nat) : Moneybag × Bool :=
  if 0 < times ∧ (self.livres > uint64Max / times ∨ self.soliduses > uint64Max / times ∨
      self.deniers > uint64Max / times) then
    (self, true)
  else
    (⟨(self.livres * times) % (uint64Max + 1),
      (self.soliduses * times) % (uint64Max + 1),
      (self.deniers * times) % (uint64Max + 1)⟩, false)

/-- `Moneybag::operator*` (member form `m * times`): copy then `*=`. -/
def Moneybag.mul (a : Moneybag) (times : Nat) : Option Moneybag :=
  match a.mulAssign times with
  | (s, false) => some s
  | (_, true) => none

/-- Free function `operator*(uint64_t, const Moneybag&)`: `times * m` is
defined as `m * times`. -/
def Moneybag.smul (times : Nat) (m : Moneybag) : Option Moneybag :=
  m.mul times

/-- `Moneybag::operator bool`: true iff some component is nonzero. -/
def Moneybag.toBool (m : Moneybag) : Bool :=
  m.livres > 0 || m.soliduses > 0 || m.deniers > 0

/-- The four values of `std::partial_ordering`. -/
inductive POrd where
  | lt
  | eq
  | gt
  | unordered
deriving DecidableEq, Repr

/-- `Moneybag::operator<=>`: equivalent when all components are equal,
greater when component-wise ≥, less when component-wise ≤, unordered
otherwise, tested in that order as in the code. -/
def Moneybag.cmp (a m : Moneybag) : POrd :=
  if a.livres = m.livres ∧ a.soliduses = m.soliduses ∧ a.deniers = m.deniers then
    POrd.eq
  else if a.livres ≥ m.livres ∧ a.soliduses ≥ m.soliduses ∧ a.deniers ≥ m.deniers then
    POrd.gt
  else if a.livres ≤ m.livres ∧ a.soliduses ≤ m.soliduses ∧ a.deniers ≤ m.deniers then
    POrd.lt
  else
    POrd.unordered

/-- `Moneybag::operator==`: `std::is_eq(*this <=> m)`. -/
def Moneybag.beq (a m : Moneybag) : Bool :=
  a.cmp m = POrd.eq

/-- `operator<<(std::ostream&, const Moneybag&)`: the exact characters the
code streams, with `uint64_t` stream insertion rendered as decimal
(`toString` on `Nat`). -/
def Moneybag.render (m : Moneybag) : String :=
  "(" ++ toString m.livres ++ " livr" ++ (if m.livres = 1 then "" else "es") ++ ", "
      ++ toString m.soliduses ++ " solidus" ++ (if m.soliduses = 1 then "" else "es") ++ ", "
      ++ toString m.deniers ++ " denier" ++ (if m.deniers = 1 then "" else "s") ++ ")"

/-- The class `Value`: a single `uint128_t` field `value_in_denier`. -/
structure Value where
  value_in_denier : Nat
deriving DecidableEq, Repr

/-- `Value::Value(uint64_t)`: the parameter has type `uint64_t`, so the
caller's argument is reduced modulo `2^64` on conversion to the parameter
type before being widened into the `uint128_t` field. -/
def Value.ofRaw (v : Nat) : Value :=
  ⟨v % (uint64Max + 1)⟩

/-- `Value::Value()`: zero. -/
def Value.zero : Value := ⟨0⟩

/-- `Value::Value(const Moneybag&)`: each counter is cast to `uint128_t`
before the scaling, so the whole computation happens modulo `2^128`. -/
def Value.ofMoneybag (m : Moneybag) : Value :=
  ⟨(m.livre_number * 240 + m.solidus_number * 12 + m.denier_number) % uint128Mod⟩

/-- `Value::operator std::string`: decimal rendering of the `uint128_t`. -/
def Value.toStr (v : Value) : String :=
  toString v.value_in_denier

/-- The three values of `std::weak_ordering`. -/
inductive WOrd where
  | lt
  | eq
  | gt
deriving DecidableEq, Repr

/-- `Value::operator<=>(const Value&)`. -/
def Value.cmp (a v : Value) : WOrd :=
  if a.value_in_denier > v.value_in_denier then WOrd.gt
  else if a.value_in_denier < v.value_in_denier then WOrd.lt
  else WOrd.eq

/-- `Value::operator<=>(uint64_t)`: the `uint64_t` parameter reduces the
caller's argument modulo `2^64`; the comparison then promotes it to
`uint128_t`, which is exact. -/
def Value.cmpU64 (a : Value) (v : Nat) : WOrd :=
  if a.value_in_denier > v % (uint64Max + 1) then WOrd.gt
  else if a.value_in_denier < v % (uint64Max + 1) then WOrd.lt
  else WOrd.eq

/-- `Value::operator==(const Value&)`: `std::is_eq(*this <=> v)`. -/
def Value.beq (a v : Value) : Bool :=
  a.cmp v = WOrd.eq

/-- `Value::operator==(uint64_t)`: `std::is_eq(*this <=> v)`. -/
def Value.beqU64 (a : Value) (v : Nat) : Bool :=
  a.cmpU64 v = WOrd.eq

/-- Constant `Livre`. -/
def Livre : Moneybag := ⟨1, 0, 0⟩

/-- Constant `Solidus`. -/
def Solidus : Moneybag := ⟨0, 1, 0⟩

/-- Constant `Denier`. -/
def Denier : Moneybag := ⟨0, 0, 1⟩

/-- C1: `a + b` and `a += b` succeed and yield the component-wise sum exactly
when, for each of the three components, `b`'s component does not exceed
`MAX` minus `a`'s component; otherwise the out-of-range exception is raised,
`+` produces no result, and in particular adding one denier to a bag whose
denier counter is at `MAX` fails rather than wrapping. -/
theorem add_spec (a b : Moneybag) (ha : a.wf) (hb : b.wf) :
    ((b.livres ≤ uint64Max - a.livres ∧ b.soliduses ≤ uint64Max - a.soliduses ∧
        b.deniers ≤ uint64Max - a.deniers) →
      a.addAssign b =
        (⟨a.livres + b.livres, a.soliduses + b.soliduses, a.deniers + b.deniers⟩, false) ∧
      a.add b = some ⟨a.livres + b.livres, a.soliduses + b.soliduses, a.deniers + b.deniers⟩)
  ∧ (¬(b.livres ≤ uint64Max - a.livres ∧ b.soliduses ≤ uint64Max - a.soliduses ∧
        b.deniers ≤ uint64Max - a.deniers) →
      a.addAssign b = (a, true) ∧ a.add b = none)
  ∧ Moneybag.add ⟨0, 0, uint64Max⟩ Denier = none := by
  obtain ⟨hal, has, had⟩ := ha
  refine ⟨?_, ?_, by decide⟩
  · rintro ⟨h1, h2, h3⟩
    have hg : ¬(b.livres > uint64Max - a.livres ∨ b.soliduses > uint64Max - a.soliduses ∨
        b.deniers > uint64Max - a.deniers) := by omega
    have e1 : (a.livres + b.livres) % (uint64Max + 1) = a.livres + b.livres :=
      Nat.mod_eq_of_lt (by simp only [uint64Max] at *; omega)
    have e2 : (a.soliduses + b.soliduses) % (uint64Max + 1) = a.soliduses + b.soliduses :=
      Nat.mod_eq_of_lt (by simp only [uint64Max] at *; omega)
    have e3 : (a.deniers + b.deniers) % (uint64Max + 1) = a.deniers + b.deniers :=
      Nat.mod_eq_of_lt (by simp only [uint64Max] at *; omega)
    simp [Moneybag.add, Moneybag.addAssign, if_neg hg, e1, e2, e3]
  · intro h
    have hg : b.livres > uint64Max - a.livres ∨ b.soliduses > uint64Max - a.soliduses ∨
        b.deniers > uint64Max - a.deniers := by omega
    simp [Moneybag.add, Moneybag.addAssign, if_pos hg]

theorem add_spec_witness :
    Moneybag.add ⟨1, 2, 3⟩ ⟨4, 5, 6⟩ = some ⟨5, 7, 9⟩ :=
  ((add_spec ⟨1, 2, 3⟩ ⟨4, 5, 6⟩ (by decide) (by decide)).1 (by decide)).2

/-- C2: `a - b` and `a -= b` raise the out-of-range exception exactly when
some component of `b` exceeds the corresponding component of `a`, leaving
`a` unchanged with no partial subtraction; otherwise they yield the
component-wise difference; in particular `Moneybag(0,0,0) - Moneybag(0,0,1)`
fails. -/
theorem sub_spec (a b : Moneybag) :
    ((b.livres ≤ a.livres ∧ b.soliduses ≤ a.soliduses ∧ b.deniers ≤ a.deniers) →
      a.subAssign b =
        (⟨a.livres - b.livres, a.soliduses - b.soliduses, a.deniers - b.deniers⟩, false) ∧
      a.sub b = some ⟨a.livres - b.livres, a.soliduses - b.soliduses, a.deniers - b.deniers⟩)
  ∧ ((b.livres > a.livres ∨ b.soliduses > a.soliduses ∨ b.deniers > a.deniers) →
      a.subAssign b = (a, true) ∧ a.sub b = none)
  ∧ Moneybag.sub ⟨0, 0, 0⟩ ⟨0, 0, 1⟩ = none := by
  refine ⟨?_, ?_, by decide⟩
  · rintro ⟨h1, h2, h3⟩
    have hg : ¬(b.livres > a.livres ∨ b.soliduses > a.soliduses ∨ b.deniers > a.deniers) := by
      omega
    simp [Moneybag.sub, Moneybag.subAssign, if_neg hg]
  · intro hg
    simp [Moneybag.sub, Moneybag.subAssign, if_pos hg]

theorem sub_spec_witness :
    Moneybag.sub ⟨5, 5, 5⟩ ⟨1, 2, 3⟩ = some ⟨4, 3, 2⟩ :=
  ((sub_spec ⟨5, 5, 5⟩ ⟨1, 2, 3⟩).1 (by decide)).2

/-- C5: whenever an in-place operation `+=`, `-=` or `*=` raises its
exception, the target `Moneybag` is returned completely unchanged: the check
precedes every field assignment, so no half-updated state is observable. -/
theorem inplace_fail_unchanged (a b : Moneybag) (k : Nat) :
    ((a.addAssign b).2 = true → (a.addAssign b).1 = a)
  ∧ ((a.subAssign b).2 = true → (a.subAssign b).1 = a)
  ∧ ((a.mulAssign k).2 = true → (a.mulAssign k).1 = a) := by
  refine ⟨?_, ?_, ?_⟩
  · unfold Moneybag.addAssign; split <;> simp
  · unfold Moneybag.subAssign; split <;> simp
  · unfold Moneybag.mulAssign; split <;> simp

theorem inplace_fail_unchanged_witness :
    (Moneybag.addAssign ⟨uint64Max, 0, 0⟩ ⟨1, 0, 0⟩).1 = ⟨uint64Max, 0, 0⟩ :=
  (inplace_fail_unchanged ⟨uint64Max, 0, 0⟩ ⟨1, 0, 0⟩ 0).1 (by decide)

/-- C3: the three-way comparison returns `eq` iff all three components are
pairwise equal, `gt` iff `a` is component-wise ≥ `b` and not all equal,
`lt` iff `a` is component-wise ≤ `b` and not all equal, and `unordered`
in the remaining cases; `Moneybag(1,0,0)` vs `Moneybag(0,1,0)` is
`unordered`, and `==` holds exactly when the comparison is `eq`. -/
theorem cmp_spec (a b : Moneybag) :
    (a.cmp b = POrd.eq ↔
      (a.livres = b.livres ∧ a.soliduses = b.soliduses ∧ a.deniers = b.deniers))
  ∧ (a.cmp b = POrd.gt ↔
      ((a.livres ≥ b.livres ∧ a.soliduses ≥ b.soliduses ∧ a.deniers ≥ b.deniers) ∧
        ¬(a.livres = b.livres ∧ a.soliduses = b.soliduses ∧ a.deniers = b.deniers)))
  ∧ (a.cmp b = POrd.lt ↔
      ((a.livres ≤ b.livres ∧ a.soliduses ≤ b.soliduses ∧ a.deniers ≤ b.deniers) ∧
        ¬(a.livres = b.livres ∧ a.soliduses = b.soliduses ∧ a.deniers = b.deniers)))
  ∧ (a.cmp b = POrd.unordered ↔
      (¬(a.livres ≥ b.livres ∧ a.soliduses ≥ b.soliduses ∧ a.deniers ≥ b.deniers) ∧
        ¬(a.livres ≤ b.livres ∧ a.soliduses ≤ b.soliduses ∧ a.deniers ≤ b.deniers)))
  ∧ Moneybag.cmp ⟨1, 0, 0⟩ ⟨0, 1, 0⟩ = POrd.unordered
  ∧ (a.beq b = true ↔ a.cmp b = POrd.eq) := by
  refine ⟨?_, ?_, ?_, ?_, by decide, ?_⟩ <;>
    simp only [Moneybag.cmp, Moneybag.beq] <;>
    split_ifs with h1 h2 h3 <;>
    simp_all <;> omega

theorem cmp_spec_witness :
    Moneybag.cmp ⟨2, 2, 2⟩ ⟨1, 1, 1⟩ = POrd.gt :=
  (cmp_spec ⟨2, 2, 2⟩ ⟨1, 1, 1⟩).2.1.mpr (by decide)

/-- Characterization of `operator*=`: the division-based guard
`component > MAX / times` coincides with `component * times > MAX`, and in
the success branch no `uint64_t` wrap occurs. -/
theorem Moneybag.mulAssign_eq (a : Moneybag) (k : Nat) :
    a.mulAssign k =
      if a.livres * k > uint64Max ∨ a.soliduses * k > uint64Max ∨ a.deniers * k > uint64Max
      then (a, true)
      else (⟨a.livres * k, a.soliduses * k, a.deniers * k⟩, false) := by
  unfold Moneybag.mulAssign
  by_cases hk : 0 < k
  · have hd : ∀ c : Nat, uint64Max / k < c ↔ uint64Max < c * k :=
      fun c => Nat.div_lt_iff_lt_mul hk
    by_cases hg : uint64Max / k < a.livres ∨ uint64Max / k < a.soliduses ∨
        uint64Max / k < a.deniers
    · have hg' : uint64Max < a.livres * k ∨ uint64Max < a.soliduses * k ∨
          uint64Max < a.deniers * k := by
        rcases hg with h | h | h
        · exact Or.inl ((hd _).mp h)
        · exact Or.inr (Or.inl ((hd _).mp h))
        · exact Or.inr (Or.inr ((hd _).mp h))
      rw [if_pos ⟨hk, hg⟩, if_pos hg']
    · have hg' : ¬(uint64Max < a.livres * k ∨ uint64Max < a.soliduses * k ∨
          uint64Max < a.deniers * k) := by
        intro h
        apply hg
        rcases h with h | h | h
        · exact Or.inl ((hd _).mpr h)
        · exact Or.inr (Or.inl ((hd _).mpr h))
        · exact Or.inr (Or.inr ((hd _).mpr h))
      push_neg at hg'
      obtain ⟨h1, h2, h3⟩ := hg'
      rw [if_neg (fun h => hg h.2), if_neg]
      · have e1 : a.livres * k % (uint64Max + 1) = a.livres * k :=
          Nat.mod_eq_of_lt (by omega)
        have e2 : a.soliduses * k % (uint64Max + 1) = a.soliduses * k :=
          Nat.mod_eq_of_lt (by omega)
        have e3 : a.deniers * k % (uint64Max + 1) = a.deniers * k :=
          Nat.mod_eq_of_lt (by omega)
        rw [e1, e2, e3]
      · omega
  · have hk0 : k = 0 := by omega
    subst hk0
    rw [if_neg (fun h => hk h.1), if_neg (by simp)]
    simp

/-- C6: `a * k` (and `k * a`, defined as `a * k`, and `a *= k`) multiplies
every component by `k`; it raises the overflow exception exactly when some
component times `k` would exceed `MAX` (the code checks `component > MAX / k`
instead of multiplying); `k = 0` always succeeds and yields the all-zero
bag. -/
theorem mul_spec (a : Moneybag) (k : Nat) :
    (a.mul k = none ↔
      (a.livres * k > uint64Max ∨ a.soliduses * k > uint64Max ∨ a.deniers * k > uint64Max))
  ∧ (a.mul k ≠ none →
      a.mulAssign k = (⟨a.livres * k, a.soliduses * k, a.deniers * k⟩, false) ∧
      a.mul k = some ⟨a.livres * k, a.soliduses * k, a.deniers * k⟩)
  ∧ Moneybag.smul k a = a.mul k
  ∧ a.mul 0 = some ⟨0, 0, 0⟩ := by
  have h := Moneybag.mulAssign_eq a k
  have h0 : a.mul 0 = some ⟨0, 0, 0⟩ := by
    unfold Moneybag.mul
    rw [Moneybag.mulAssign_eq a 0, if_neg (by simp)]
    simp
  by_cases hg : uint64Max < a.livres * k ∨ uint64Max < a.soliduses * k ∨
      uint64Max < a.deniers * k
  · rw [if_pos hg] at h
    have hm : a.mul k = none := by
      unfold Moneybag.mul
      rw [h]
    exact ⟨by simp [hm, hg], by simp [hm], rfl, h0⟩
  · rw [if_neg hg] at h
    have hm : a.mul k = some ⟨a.livres * k, a.soliduses * k, a.deniers * k⟩ := by
      unfold Moneybag.mul
      rw [h]
    exact ⟨by simp [hm, hg], fun _ => ⟨h, hm⟩, rfl, h0⟩

theorem mul_spec_witness :
    Moneybag.mul ⟨2, 3, 4⟩ 5 = some ⟨10, 15, 20⟩ :=
  ((mul_spec ⟨2, 3, 4⟩ 5).2.1 (by decide)).2

/-- C4: converting a `Moneybag` to a `Value` yields exactly
`livres*240 + soliduses*12 + deniers` with no `uint128_t` overflow, even at
the all-max bag; the unit bags convert to 240, 12, 1, and `(1,1,1)` to
253. -/
theorem value_ofMoneybag_spec (m : Moneybag) (h : m.wf) :
    (Value.ofMoneybag m).value_in_denier = m.livres * 240 + m.soliduses * 12 + m.deniers
  ∧ Value.ofMoneybag ⟨1, 0, 0⟩ = ⟨240⟩
  ∧ Value.ofMoneybag ⟨0, 1, 0⟩ = ⟨12⟩
  ∧ Value.ofMoneybag ⟨0, 0, 1⟩ = ⟨1⟩
  ∧ Value.ofMoneybag ⟨1, 1, 1⟩ = ⟨253⟩
  ∧ (Value.ofMoneybag ⟨uint64Max, uint64Max, uint64Max⟩).value_in_denier
      = uint64Max * 240 + uint64Max * 12 + uint64Max := by
  obtain ⟨h1, h2, h3⟩ := h
  refine ⟨?_, by decide, by decide, by decide, by decide, by decide⟩
  unfold Value.ofMoneybag Moneybag.livre_number Moneybag.solidus_number Moneybag.denier_number
  apply Nat.mod_eq_of_lt
  simp only [uint64Max, uint128Mod] at *
  omega

theorem value_ofMoneybag_spec_witness :
    (Value.ofMoneybag ⟨1, 2, 3⟩).value_in_denier = 1 * 240 + 2 * 12 + 3 :=
  (value_ofMoneybag_spec ⟨1, 2, 3⟩ (by decide)).1

/-- C7: at `Moneybag(1,0,2)` the stream operator emits
`"(1 livr, 0 soliduses, 2 deniers)"` — the singular of livre is rendered as
`"livr"` (the code appends the empty string instead of `"e"` when the count
is 1) — and not the grammatically correct `"(1 livre, 0 soliduses, 2
deniers)"` that the specification requires. -/
theorem render_singular_livre_bug :
    Moneybag.render ⟨1, 0, 2⟩ = "(1 livr, 0 soliduses, 2 deniers)"
  ∧ Moneybag.render ⟨1, 0, 2⟩ ≠ "(1 livre, 0 soliduses, 2 deniers)" := by
  constructor
  · rfl
  · decide

/-- Inversion for a successful `operator+`: the result is the component-wise
sum and every component of the sum fits in `uint64_t`. -/
theorem Moneybag.add_some (a b s : Moneybag) (ha : a.wf) (hs : a.add b = some s) :
    s = ⟨a.livres + b.livres, a.soliduses + b.soliduses, a.deniers + b.deniers⟩ ∧
    a.livres + b.livres ≤ uint64Max ∧ a.soliduses + b.soliduses ≤ uint64Max ∧
    a.deniers + b.deniers ≤ uint64Max := by
  obtain ⟨h1, h2, h3⟩ := ha
  unfold Moneybag.add Moneybag.addAssign at hs
  by_cases hg : b.livres > uint64Max - a.livres ∨ b.soliduses > uint64Max - a.soliduses ∨
      b.deniers > uint64Max - a.deniers
  · rw [if_pos hg] at hs
    simp at hs
  · rw [if_neg hg] at hs
    push_neg at hg
    obtain ⟨g1, g2, g3⟩ := hg
    have hl : a.livres + b.livres ≤ uint64Max := by omega
    have hss : a.soliduses + b.soliduses ≤ uint64Max := by omega
    have hd : a.deniers + b.deniers ≤ uint64Max := by omega
    have e1 : (a.livres + b.livres) % (uint64Max + 1) = a.livres + b.livres :=
      Nat.mod_eq_of_lt (by omega)
    have e2 : (a.soliduses + b.soliduses) % (uint64Max + 1) = a.soliduses + b.soliduses :=
      Nat.mod_eq_of_lt (by omega)
    have e3 : (a.deniers + b.deniers) % (uint64Max + 1) = a.deniers + b.deniers :=
      Nat.mod_eq_of_lt (by omega)
    rw [e1, e2, e3] at hs
    simp at hs
    exact ⟨hs.symm, hl, hss, hd⟩

/-- Inversion for a successful `operator*`: the result is the component-wise
product and every component of the product fits in `uint64_t`. -/
theorem Moneybag.mul_some (a : Moneybag) (k : Nat) (s : Moneybag)
    (hs : a.mul k = some s) :
    s = ⟨a.livres * k, a.soliduses * k, a.deniers * k⟩ ∧
    a.livres * k ≤ uint64Max ∧ a.soliduses * k ≤ uint64Max ∧ a.deniers * k ≤ uint64Max := by
  unfold Moneybag.mul at hs
  rw [Moneybag.mulAssign_eq] at hs
  by_cases hg : uint64Max < a.livres * k ∨ uint64Max < a.soliduses * k ∨
      uint64Max < a.deniers * k
  · rw [if_pos hg] at hs
    simp at hs
  · rw [if_neg hg] at hs
    push_neg at hg
    simp at hs
    exact ⟨hs.symm, hg.1, hg.2.1, hg.2.2⟩

/-- C8: the worth conversion is linear: when `a + b` succeeds, the
`uint128_t` behind `Value(a + b)` is the sum of those behind `Value(a)` and
`Value(b)`; when `a * k` succeeds, the `uint128_t` behind `Value(a * k)` is
`k` times the one behind `Value(a)`. -/
theorem value_linear (a b : Moneybag) (k : Nat) (ha : a.wf) (hb : b.wf) :
    (∀ s, a.add b = some s →
      (Value.ofMoneybag s).value_in_denier
        = (Value.ofMoneybag a).value_in_denier + (Value.ofMoneybag b).value_in_denier)
  ∧ (∀ s, a.mul k = some s →
      (Value.ofMoneybag s).value_in_denier = k * (Value.ofMoneybag a).value_in_denier) := by
  have hva : (Value.ofMoneybag a).value_in_denier
      = a.livres * 240 + a.soliduses * 12 + a.deniers := by
    obtain ⟨h1, h2, h3⟩ := ha
    unfold Value.ofMoneybag Moneybag.livre_number Moneybag.solidus_number Moneybag.denier_number
    apply Nat.mod_eq_of_lt
    simp only [uint64Max, uint128Mod] at *
    omega
  have hvb : (Value.ofMoneybag b).value_in_denier
      = b.livres * 240 + b.soliduses * 12 + b.deniers := by
    obtain ⟨h1, h2, h3⟩ := hb
    unfold Value.ofMoneybag Moneybag.livre_number Moneybag.solidus_number Moneybag.denier_number
    apply Nat.mod_eq_of_lt
    simp only [uint64Max, uint128Mod] at *
    omega
  constructor
  · intro s hs
    obtain ⟨hseq, hl, hss, hd⟩ := Moneybag.add_some a b s ha hs
    subst hseq
    have hvs : (Value.ofMoneybag
        (⟨a.livres + b.livres, a.soliduses + b.soliduses, a.deniers + b.deniers⟩ :
          Moneybag)).value_in_denier
        = (a.livres + b.livres) * 240 + (a.soliduses + b.soliduses) * 12 +
          (a.deniers + b.deniers) := by
      unfold Value.ofMoneybag Moneybag.livre_number Moneybag.solidus_number
        Moneybag.denier_number
      apply Nat.mod_eq_of_lt
      simp only [uint64Max, uint128Mod] at *
      omega
    rw [hvs, hva, hvb]
    ring
  · intro s hs
    obtain ⟨hseq, hl, hss, hd⟩ := Moneybag.mul_some a k s hs
    subst hseq
    have hvs : (Value.ofMoneybag
        (⟨a.livres * k, a.soliduses * k, a.deniers * k⟩ : Moneybag)).value_in_denier
        = a.livres * k * 240 + a.soliduses * k * 12 + a.deniers * k := by
      unfold Value.ofMoneybag Moneybag.livre_number Moneybag.solidus_number
        Moneybag.denier_number
      apply Nat.mod_eq_of_lt
      simp only [uint64Max, uint128Mod] at *
      omega
    rw [hvs, hva]
    ring

theorem value_linear_witness :
    (Value.ofMoneybag ⟨3, 3, 3⟩).value_in_denier
      = (Value.ofMoneybag ⟨1, 1, 1⟩).value_in_denier +
        (Value.ofMoneybag ⟨2, 2, 2⟩).value_in_denier :=
  (value_linear ⟨1, 1, 1⟩ ⟨2, 2, 2⟩ 0 (by decide) (by decide)).1 ⟨3, 3, 3⟩ (by decide)

/-- C9 counterexample: a raw denier count exceeding the `uint64_t` range is
not stored in the wide field — the `uint64_t` constructor parameter reduces
it modulo `2^64`, so `2^64` is stored as `0`. -/
theorem value_ofRaw_wide_cex :
    (Value.ofRaw (uint64Max + 1)).value_in_denier = 0 ∧
    (Value.ofRaw (uint64Max + 1)).value_in_denier ≠ uint64Max + 1 := by
  decide

/-- C9 (amended): `Value` can be constructed directly from any raw denier
count within the `uint64_t` range, stored verbatim in the `uint128_t` field,
and with no arguments, yielding the zero `Value`. -/
theorem value_ofRaw_spec (n : Nat) (h : n ≤ uint64Max) :
    (Value.ofRaw n).value_in_denier = n ∧ Value.zero.value_in_denier = 0 := by
  refine ⟨?_, rfl⟩
  unfold Value.ofRaw
  exact Nat.mod_eq_of_lt (by omega)

theorem value_ofRaw_spec_witness :
    (Value.ofRaw 7).value_in_denier = 7 :=
  (value_ofRaw_spec 7 (by decide)).1

/-- C10: comparing a `Value` against a raw `uint64_t` agrees with first
boxing the raw count into a `Value`: the ordering results coincide and the
equality tests coincide. -/
theorem value_cmpU64_refines (w : Value) (n : Nat) :
    w.cmpU64 n = w.cmp (Value.ofRaw n)
  ∧ (w.beqU64 n = true ↔ w.beq (Value.ofRaw n) = true) :=
  ⟨rfl, Iff.rfl⟩
